import Mathlib

/-!
Verification of the retrieval-orchestration core of the MnA Tax Intelligence
Platform (Backend/orchestration, Backend/agents, Backend/function_tools).

Python text is modelled as `List Char` (named `Text`) where character-level
slicing and lengths matter, and as `String` where only equality is used.
Python dictionaries carrying documents are modelled by the `Doc` structure,
whose optional fields reflect `dict.get` access with defaults at use sites.
Rational numbers stand for Python floats (all arithmetic in the modelled
code is exact on the values involved).
-/

namespace MnA

/-- Text modelled as a list of characters; Python slicing is `List.take`. -/
abbrev Text := List Char

/-- Query complexity tiers from models/enums.py (QueryComplexity). -/
inductive QueryComplexity where
  | simple
  | moderate
  | complex
  | expert
deriving DecidableEq, Repr

/-- A retrieved document (the Python dict). Optional fields model keys that
may be absent; use sites apply the defaults of the corresponding
`doc.get(key, default)` calls. `retrievedBy` and `agentConfidence` are the
annotations written by `_consolidate_results`. -/
structure Doc where
  id : Option String
  title : Option String
  content : Option Text
  relevance : Option ℚ
  source : Option String
  retrievedBy : Option String
  agentConfidence : Option ℚ
deriving DecidableEq, Repr

/-- Per-agent output (models/results.py RetrievalResult); the metadata dict
is modelled by its `error` entry. -/
structure RetrievalResult where
  documents : List Doc
  confidence : ℚ
  source : String
  metadataError : Option String
  retrievalTime : ℚ
deriving DecidableEq, Repr

/-- Final output (models/synthesis.py SynthesisResult); the metadata dict is
modelled by its `error` entry, `sources` by (title, source, relevance)
triples as built in `_create_synthesis_result`. -/
structure SynthesisResult where
  answer : String
  confidence : ℚ
  sources : List (String × String × ℚ)
  metadataError : Option String
deriving DecidableEq, Repr

/-! ### Quality gate (claim C1)

`RAGOrchestrator._needs_external_sourcing` and
`PhaseExecutor.quality_check_node` are the two quality-gate decision
functions in the source. -/

/-- Embeds orchestrator.py `_needs_external_sourcing`: external sourcing is
needed when the document count is below `settings.min_docs_threshold`, or
the average confidence is below `settings.confidence_threshold`, or the
complexity is expert. -/
def needsExternalSourcing (minDocsThreshold : ℕ) (confidenceThreshold : ℚ)
    (totalDocs : ℕ) (avgConfidence : ℚ) (complexity : QueryComplexity) : Bool :=
  if totalDocs < minDocsThreshold then true
  else if avgConfidence < confidenceThreshold then true
  else if complexity = .expert then true
  else false

/-- Average of a list of confidence scores, 0 when empty (the Python code
guards the division by emptiness checks). -/
def avgOf (scores : List ℚ) : ℚ :=
  if scores = [] then 0 else scores.sum / scores.length

/-- Embeds phases.py `quality_check_node`: `needs_external_enrichment` is
`not (doc_count >= 3 and avg_confidence >= confidence_threshold)` where the
average ranges over the internal agent confidence scores. -/
def qualityCheckNeedsEnrichment (confidenceThreshold : ℚ)
    (docCount : ℕ) (internalScores : List ℚ) : Bool :=
  let avgConfidence := avgOf internalScores
  !(decide (3 ≤ docCount) && decide (confidenceThreshold ≤ avgConfidence))

/-- Recency terms of phases.py `_select_external_agents`, the lexical
"wants current/recent data" pattern of this repository. -/
def currentDataTerms : List Text :=
  ["current".toList, "recent".toList, "latest".toList,
   "new".toList, "2024".toList, "2025".toList]

/-- Contiguous-substring test on character lists (Python `needle in s`). -/
def containsSeq (needle : Text) : Text → Bool
  | [] => needle.isEmpty
  | c :: rest => needle.isPrefixOf (c :: rest) || containsSeq needle rest

/-- Lowercasing of text (Python `str.lower`). -/
def toLowerText (t : Text) : Text := t.map Char.toLower

/-- Whether the lowercased query matches the "wants current/recent data"
lexical pattern. -/
def wantsCurrentData (query : Text) : Bool :=
  currentDataTerms.any (fun t => containsSeq t (toLowerText query))

/-- The quality-gate formula exactly as claim C1 states it: documents below
threshold, or low average confidence, or expert complexity, or a
current-data lexical match. -/
def claimedNeedsEnrichment (minDocsThreshold : ℕ) (confidenceThreshold : ℚ)
    (totalDocs : ℕ) (avgConfidence : ℚ) (complexity : QueryComplexity)
    (query : Text) : Bool :=
  decide (totalDocs < minDocsThreshold) || decide (avgConfidence < confidenceThreshold)
    || decide (complexity = .expert) || wantsCurrentData query

/-- C1 (counterexample): with the default thresholds (3 documents, 0.6
confidence), five documents at average confidence 0.9 on a moderate query
that matches the current-data lexical pattern, both gate functions in the
source return false while the claimed four-disjunct formula returns true:
the lexical pattern is not part of the quality gate in the code. -/
theorem quality_gate_lexical_counterexample :
    needsExternalSourcing 3 (6/10) 5 (9/10) .moderate = false ∧
    qualityCheckNeedsEnrichment (6/10) 5 [9/10, 9/10] = false ∧
    claimedNeedsEnrichment 3 (6/10) 5 (9/10) .moderate
      ("current merger rates".toList) = true := by
  have hlex : wantsCurrentData ("current merger rates".toList) = true := by decide
  refine ⟨?_, ?_, ?_⟩
  · simp only [needsExternalSourcing]
    norm_num
    decide
  · have havg : avgOf [9/10, 9/10] = 9/10 := by
      simp only [avgOf]
      simp
    simp only [qualityCheckNeedsEnrichment, havg]
    norm_num
  · simp only [claimedNeedsEnrichment, hlex, Bool.or_true]

/-- C1 (amended): the quality gate of the orchestrator is the deterministic pure
function of the merged state returning true exactly when the document count
is below the minimum-documents threshold, or the average confidence is
below the confidence threshold, or the complexity tier is expert; the
lexical current-data pattern does not enter the gate. -/
theorem needs_external_sourcing_characterisation
    (minDocsThreshold totalDocs : ℕ) (confidenceThreshold avgConfidence : ℚ)
    (complexity : QueryComplexity) :
    needsExternalSourcing minDocsThreshold confidenceThreshold
        totalDocs avgConfidence complexity =
      (decide (totalDocs < minDocsThreshold)
        || decide (avgConfidence < confidenceThreshold)
        || decide (complexity = .expert)) := by
  unfold needsExternalSourcing
  split_ifs <;> simp_all

/-! ### Top-level failure policy of process_query (claim C2)

`RAGOrchestrator.process_query` wraps the whole five-step pipeline in a
try/except; the pipeline body is modelled by its outcome, `Except` carrying
either the produced SynthesisResult or the stringified exception. -/

/-- The fallback answer of the except branch of process_query. -/
def fallbackAnswer : String :=
  "I apologize, but I encountered an error processing your query. Please try again."

/-- Embeds orchestrator.py `process_query`: on a pipeline exception, return
the fallback SynthesisResult with confidence 0.0, no sources, and the error
message in metadata; otherwise return the result of the pipeline. -/
def processQuery (pipeline : Except String SynthesisResult) : SynthesisResult :=
  match pipeline with
  | .ok r => r
  | .error e => ⟨fallbackAnswer, 0, [], some e⟩

/-- C2: process_query always returns a SynthesisResult (it is a total
function of the pipeline outcome, so no exception escapes), and whenever
the pipeline raises, the returned result has confidence 0.0, an empty
sources list, and the error message recorded in its metadata. -/
theorem process_query_error_policy (e : String) :
    (∀ pipeline : Except String SynthesisResult, ∃ r, processQuery pipeline = r) ∧
    (processQuery (Except.error e)).confidence = 0 ∧
    (processQuery (Except.error e)).sources = [] ∧
    (processQuery (Except.error e)).metadataError = some e :=
  ⟨fun pipeline => ⟨processQuery pipeline, rfl⟩, rfl, rfl, rfl⟩

/-! ### Final confidence (claim C3)

Three source functions are relevant: `_create_synthesis_result` (the one
the live `process_query` path uses in step 5), `_apply_post_processing`
(defined on the orchestrator but never invoked), and the alternative
executor function `_generate_final_output` (phases.py). -/

/-- The synthesis-service output dict, modelled by the keys
`_create_synthesis_result` reads. -/
structure SynthesisData where
  summary : Option String
  comprehensiveAnalysis : Option String
  llmConfidence : Option ℚ
deriving DecidableEq, Repr

/-- Embeds orchestrator.py `_create_synthesis_result`: the answer falls back
from summary to comprehensive_analysis, the confidence is the synthesis
own llm_confidence of the synthesis call (default 0.7), and sources are the first ten
retrieved documents. The agent results populate only descriptive metadata
not modelled here; note they do not enter the confidence. -/
def createSynthesisResult (synthesisData : SynthesisData)
    (retrievedDocuments : List Doc)
    (agentResults : List (String × RetrievalResult)) : SynthesisResult :=
  let answer := synthesisData.summary.getD
    (synthesisData.comprehensiveAnalysis.getD "No synthesis available")
  let confidence := synthesisData.llmConfidence.getD (7/10)
  let sources := (retrievedDocuments.take 10).map (fun d =>
    (d.title.getD "Unknown", d.source.getD "Unknown", d.relevance.getD 0))
  ⟨answer, confidence, sources, none⟩

/-- Embeds the confidence computation of phases.py `_generate_final_output`:
0 when there are no confidence scores, otherwise the mean of the scores
weighted 0.6 plus the llm confidence weighted 0.4. -/
def generateOverallConfidence (confidenceScores : List ℚ) (llmConfidence : ℚ) : ℚ :=
  if confidenceScores = [] then 0
  else (confidenceScores.sum / confidenceScores.length) * (6/10) + llmConfidence * (4/10)

/-- Embeds the confidence adjustment of orchestrator.py `_apply_post_processing`
(0.7 times the synthesis confidence plus 0.3 times the mean of the positive
agent confidences); this method is defined but never called on the
process_query path. -/
def applyPostProcessingConfidence (synthesisConfidence : ℚ)
    (agentConfidences : List ℚ) : ℚ :=
  let positives := agentConfidences.filter (fun c => 0 < c)
  if positives = [] then synthesisConfidence
  else synthesisConfidence * (7/10) + (positives.sum / positives.length) * (3/10)

/-- A synthesis-data value whose self-reported confidence is 0.5. -/
def sdHalf : SynthesisData := ⟨some "summary", none, some (1/2)⟩

/-- Agent results with high consensus confidence (0.9). -/
def agentResultsHigh : List (String × RetrievalResult) :=
  [("CaseLawAgent", ⟨[], 9/10, "case_law_agent", none, 0⟩)]

/-- Agent results with low consensus confidence (0.1). -/
def agentResultsLow : List (String × RetrievalResult) :=
  [("CaseLawAgent", ⟨[], 1/10, "case_law_agent", none, 0⟩)]

/-- C3 (counterexample): in the live pipeline (process_query step 5), the
final reported confidence is that of `_create_synthesis_result`, which is the
own confidence of the synthesis call alone: moving the agent-consensus mean from
0.9 to 0.1 while the synthesis-call confidence stays 0.5 leaves the final
confidence unchanged at 0.5, so agent consensus does not influence it. -/
theorem final_confidence_not_blended_counterexample :
    (createSynthesisResult sdHalf [] agentResultsHigh).confidence =
      (createSynthesisResult sdHalf [] agentResultsLow).confidence ∧
    (createSynthesisResult sdHalf [] agentResultsHigh).confidence = 1/2 := ⟨rfl, rfl⟩

/-- C3 (amended): the agent-consensus blend exists only in
`PhaseExecutor._generate_final_output` (weights 0.6/0.4) and in the
never-invoked `_apply_post_processing` (weights 0.7/0.3); in the former,
whenever any confidence scores exist, the result equals the 0.6/0.4 blend
and changing the agent-consensus mean while holding the llm confidence
fixed changes the final value. The live process_query path reports the
own confidence of the synthesis call unblended. -/
theorem final_output_confidence_blends (s1 s2 : List ℚ) (llm : ℚ)
    (h1 : s1 ≠ []) (h2 : s2 ≠ []) (hne : avgOf s1 ≠ avgOf s2) :
    generateOverallConfidence s1 llm = avgOf s1 * (6/10) + llm * (4/10) ∧
    generateOverallConfidence s1 llm ≠ generateOverallConfidence s2 llm := by
  have e1 : generateOverallConfidence s1 llm = avgOf s1 * (6/10) + llm * (4/10) := by
    simp only [generateOverallConfidence, avgOf, if_neg h1]
  have e2 : generateOverallConfidence s2 llm = avgOf s2 * (6/10) + llm * (4/10) := by
    simp only [generateOverallConfidence, avgOf, if_neg h2]
  refine ⟨e1, ?_⟩
  rw [e1, e2]
  intro h
  exact hne (by linarith)

/-- C3 (witness for the amended theorem): consensus mean 0.9 versus 0.1 at
fixed llm confidence 0.5 yields different blended values. -/
theorem final_output_confidence_blends_witness :
    generateOverallConfidence [9/10] (1/2) ≠ generateOverallConfidence [1/10] (1/2) :=
  (final_output_confidence_blends [9/10] [1/10] (1/2)
    (by simp) (by simp) (by simp [avgOf]; norm_num)).2

/-! ### Document deduplication (claims C4 and C8)

phases.py `_deduplicate_documents` walks the list with two seen-sets, one
of truthy ids and one of content-prefix hashes, skipping a document when
either key was already seen. the Python expression hash(content[:200]) is modelled by
the 200-character prefix itself, and set membership by decidable list
membership. -/

/-- Content of a document, empty when absent (doc.get of the content key, defaulting to empty). -/
def contentOf (d : Doc) : Text := d.content.getD []

/-- Content fingerprint: the first 200 characters of the content. -/
def fingerprint (d : Doc) : Text := (contentOf d).take 200

/-- The document id as Python truthiness sees it: present and non-empty. -/
def truthyId (d : Doc) : Option String :=
  match d.id with
  | some i => if i = "" then none else some i
  | none => none

/-- Whether the document is skipped because its truthy id was seen. -/
def idBlocked (seenIds : List String) (d : Doc) : Bool :=
  match truthyId d with
  | some i => decide (i ∈ seenIds)
  | none => false

/-- Whether `_deduplicate_documents` skips the document: truthy id already
seen, or content fingerprint already seen. -/
def blocked (seenIds : List String) (seenHashes : List Text) (d : Doc) : Bool :=
  idBlocked seenIds d || decide (fingerprint d ∈ seenHashes)

/-- Seen-id update: ids are recorded only when truthy. -/
def pushId (d : Doc) (seenIds : List String) : List String :=
  match truthyId d with
  | some i => i :: seenIds
  | none => seenIds

/-- The loop of phases.py `_deduplicate_documents`. -/
def dedupAux (seenIds : List String) (seenHashes : List Text) : List Doc → List Doc
  | [] => []
  | d :: rest =>
    if blocked seenIds seenHashes d then dedupAux seenIds seenHashes rest
    else d :: dedupAux (pushId d seenIds) (fingerprint d :: seenHashes) rest

/-- phases.py `_deduplicate_documents`. -/
def deduplicateDocuments (documents : List Doc) : List Doc := dedupAux [] [] documents

/-- The merge used at every join point (phases.py phase 3 and phase 3b):
concatenate the existing and incoming documents, then deduplicate. -/
def mergeDocuments (existing incoming : List Doc) : List Doc :=
  deduplicateDocuments (existing ++ incoming)

/-- The id seen-set after processing a list of documents. -/
def idsAfter (seenIds : List String) (seenHashes : List Text) : List Doc → List String
  | [] => seenIds
  | d :: rest =>
    if blocked seenIds seenHashes d then idsAfter seenIds seenHashes rest
    else idsAfter (pushId d seenIds) (fingerprint d :: seenHashes) rest

/-- The fingerprint seen-set after processing a list of documents. -/
def hashesAfter (seenIds : List String) (seenHashes : List Text) : List Doc → List Text
  | [] => seenHashes
  | d :: rest =>
    if blocked seenIds seenHashes d then hashesAfter seenIds seenHashes rest
    else hashesAfter (pushId d seenIds) (fingerprint d :: seenHashes) rest

theorem subset_pushId (d : Doc) (s : List String) : s ⊆ pushId d s := by
  unfold pushId
  cases truthyId d
  · exact fun x hx => hx
  · exact fun x hx => List.mem_cons_of_mem _ hx

theorem subset_idsAfter (X : List Doc) : ∀ s h, s ⊆ idsAfter s h X := by
  induction X with
  | nil => intro s h; exact fun x hx => hx
  | cons d rest ih =>
    intro s h
    by_cases hb : blocked s h d = true
    · rw [idsAfter, if_pos hb]
      exact ih s h
    · rw [idsAfter, if_neg hb]
      exact fun x hx => ih (pushId d s) (fingerprint d :: h) (subset_pushId d s hx)

theorem subset_hashesAfter (X : List Doc) : ∀ s h, h ⊆ hashesAfter s h X := by
  induction X with
  | nil => intro s h; exact fun t ht => ht
  | cons d rest ih =>
    intro s h
    by_cases hb : blocked s h d = true
    · rw [hashesAfter, if_pos hb]
      exact ih s h
    · rw [hashesAfter, if_neg hb]
      exact fun t ht => ih (pushId d s) (fingerprint d :: h)
        (List.mem_cons_of_mem _ ht)

theorem blocked_mono {s s2 : List String} {h h2 : List Text} {d : Doc}
    (hs : s ⊆ s2) (hh : h ⊆ h2) (hb : blocked s h d = true) :
    blocked s2 h2 d = true := by
  unfold blocked idBlocked at hb ⊢
  cases htid : truthyId d with
  | none =>
    rw [htid] at hb
    simp only [Bool.false_or, decide_eq_true_eq] at hb
    simp only [Bool.false_or, decide_eq_true_eq]
    exact hh hb
  | some i =>
    rw [htid] at hb
    simp only [Bool.or_eq_true, decide_eq_true_eq] at hb
    simp only [Bool.or_eq_true, decide_eq_true_eq]
    exact hb.imp (fun hbi => hs hbi) (fun hbh => hh hbh)

theorem blocked_after_of_mem (X : List Doc) : ∀ s h d, d ∈ X →
    blocked (idsAfter s h X) (hashesAfter s h X) d = true := by
  induction X with
  | nil => intro s h d hd; cases hd
  | cons a rest ih =>
    intro s h d hd
    by_cases hb : blocked s h a = true
    · rw [idsAfter, if_pos hb, hashesAfter, if_pos hb]
      rcases List.mem_cons.mp hd with rfl | hd2
      · exact blocked_mono (subset_idsAfter rest s h) (subset_hashesAfter rest s h) hb
      · exact ih s h d hd2
    · rw [idsAfter, if_neg hb, hashesAfter, if_neg hb]
      rcases List.mem_cons.mp hd with rfl | hd2
      · have hfp : fingerprint d ∈ hashesAfter (pushId d s) (fingerprint d :: h) rest :=
          subset_hashesAfter rest (pushId d s) (fingerprint d :: h)
            (List.mem_cons_self _ _)
        unfold blocked
        simp only [Bool.or_eq_true, decide_eq_true_eq]
        exact Or.inr hfp
      · exact ih (pushId a s) (fingerprint a :: h) d hd2

theorem dedupAux_eq_nil_of_all_blocked (Y : List Doc) : ∀ s h,
    (∀ d ∈ Y, blocked s h d = true) → dedupAux s h Y = [] := by
  induction Y with
  | nil => intro s h _; rfl
  | cons d rest ih =>
    intro s h hall
    rw [dedupAux, if_pos (hall d (List.mem_cons_self d rest))]
    exact ih s h (fun e he => hall e (List.mem_cons_of_mem d he))

theorem dedupAux_append (X Y : List Doc) : ∀ s h,
    dedupAux s h (X ++ Y) =
      dedupAux s h X ++ dedupAux (idsAfter s h X) (hashesAfter s h X) Y := by
  induction X with
  | nil => intro s h; rfl
  | cons d rest ih =>
    intro s h
    by_cases hb : blocked s h d = true
    · rw [List.cons_append, dedupAux, if_pos hb, dedupAux, if_pos hb,
        idsAfter, if_pos hb, hashesAfter, if_pos hb]
      exact ih s h
    · rw [List.cons_append, dedupAux, if_neg hb, dedupAux, if_neg hb,
        idsAfter, if_neg hb, hashesAfter, if_neg hb, List.cons_append]
      rw [ih (pushId d s) (fingerprint d :: h)]

theorem after_dedup (X : List Doc) : ∀ s h,
    idsAfter s h (dedupAux s h X) = idsAfter s h X ∧
    hashesAfter s h (dedupAux s h X) = hashesAfter s h X := by
  induction X with
  | nil => intro s h; exact ⟨rfl, rfl⟩
  | cons d rest ih =>
    intro s h
    by_cases hb : blocked s h d = true
    · rw [dedupAux, if_pos hb, idsAfter, if_pos hb, hashesAfter, if_pos hb]
      exact ih s h
    · rw [dedupAux, if_neg hb, idsAfter, if_neg hb, hashesAfter, if_neg hb,
        idsAfter, if_neg hb, hashesAfter, if_neg hb]
      exact ih (pushId d s) (fingerprint d :: h)

theorem dedupAux_idem (X : List Doc) : ∀ s h,
    dedupAux s h (dedupAux s h X) = dedupAux s h X := by
  induction X with
  | nil => intro s h; rfl
  | cons d rest ih =>
    intro s h
    by_cases hb : blocked s h d = true
    · rw [dedupAux, if_pos hb]
      exact ih s h
    · rw [dedupAux, if_neg hb, dedupAux, if_neg hb]
      rw [ih (pushId d s) (fingerprint d :: h)]

/-- C8: the deduplicating merge is idempotent in the incoming set:
re-merging the same incoming documents changes nothing. -/
theorem merge_idempotent (A B : List Doc) :
    mergeDocuments (mergeDocuments A B) B = mergeDocuments A B := by
  unfold mergeDocuments deduplicateDocuments
  rw [dedupAux_append, dedupAux_idem, (after_dedup (A ++ B) [] []).1,
    (after_dedup (A ++ B) [] []).2,
    dedupAux_eq_nil_of_all_blocked B _ _
      (fun d hd => blocked_after_of_mem (A ++ B) [] [] d (List.mem_append_right A hd)),
    List.append_nil]

theorem dedupAux_sublist (X : List Doc) : ∀ s h, (dedupAux s h X).Sublist X := by
  induction X with
  | nil => intro s h; exact List.Sublist.refl []
  | cons d rest ih =>
    intro s h
    by_cases hb : blocked s h d = true
    · rw [dedupAux, if_pos hb]
      exact (ih s h).cons d
    · rw [dedupAux, if_neg hb]
      exact (ih (pushId d s) (fingerprint d :: h)).cons₂ d

/-- Two documents have distinct identities: distinct fingerprints and, when
both carry truthy ids, distinct ids. -/
def distinctKeys (a b : Doc) : Prop :=
  fingerprint a ≠ fingerprint b ∧ ∀ i, truthyId a = some i → truthyId b ≠ some i

theorem not_blocked_elim {s : List String} {h : List Text} {d : Doc}
    (hb : ¬ blocked s h d = true) :
    fingerprint d ∉ h ∧ ∀ i, truthyId d = some i → i ∉ s := by
  unfold blocked idBlocked at hb
  cases htid : truthyId d with
  | none =>
    rw [htid] at hb
    simp only [Bool.false_or, decide_eq_true_eq] at hb
    exact ⟨hb, fun i hi => by simp [htid] at hi⟩
  | some i =>
    rw [htid] at hb
    simp only [Bool.or_eq_true, decide_eq_true_eq, not_or] at hb
    refine ⟨hb.2, fun j hj => ?_⟩
    simp only [Option.some.injEq] at hj
    subst hj
    exact hb.1

theorem mem_pushId_self {d : Doc} {i : String} (hi : truthyId d = some i)
    (s : List String) : i ∈ pushId d s := by
  unfold pushId
  rw [hi]
  exact List.mem_cons_self i s

theorem dedup_invariant (X : List Doc) : ∀ s h,
    (∀ d ∈ dedupAux s h X, fingerprint d ∉ h ∧ ∀ i, truthyId d = some i → i ∉ s) ∧
    (dedupAux s h X).Pairwise distinctKeys := by
  induction X with
  | nil =>
    intro s h
    exact ⟨fun d hd => absurd hd (List.not_mem_nil d), List.Pairwise.nil⟩
  | cons d rest ih =>
    intro s h
    by_cases hb : blocked s h d = true
    · rw [dedupAux, if_pos hb]
      exact ih s h
    · rw [dedupAux, if_neg hb]
      obtain ⟨ihmem, ihpw⟩ := ih (pushId d s) (fingerprint d :: h)
      constructor
      · intro e he
        rcases List.mem_cons.mp he with rfl | he2
        · exact not_blocked_elim hb
        · obtain ⟨hfp, hid⟩ := ihmem e he2
          refine ⟨fun hmem => hfp (List.mem_cons_of_mem _ hmem), fun i hi hmem => ?_⟩
          exact hid i hi (subset_pushId d s hmem)
      · refine List.Pairwise.cons (fun b hbmem => ?_) ihpw
        obtain ⟨hfp, hid⟩ := ihmem b hbmem
        refine ⟨fun heq => hfp (heq ▸ List.mem_cons_self _ _), fun i hdi hbi => ?_⟩
        exact hid i hbi (mem_pushId_self hdi s)

theorem after_mem_origin (X : List Doc) : ∀ s h,
    (∀ x, x ∈ idsAfter s h X → x ∈ s ∨ ∃ e ∈ dedupAux s h X, truthyId e = some x) ∧
    (∀ t, t ∈ hashesAfter s h X → t ∈ h ∨ ∃ e ∈ dedupAux s h X, fingerprint e = t) := by
  induction X with
  | nil =>
    intro s h
    exact ⟨fun x hx => Or.inl hx, fun t ht => Or.inl ht⟩
  | cons d rest ih =>
    intro s h
    by_cases hb : blocked s h d = true
    · rw [idsAfter, if_pos hb, hashesAfter, if_pos hb, dedupAux, if_pos hb]
      exact ih s h
    · rw [idsAfter, if_neg hb, hashesAfter, if_neg hb, dedupAux, if_neg hb]
      obtain ⟨ihids, ihhashes⟩ := ih (pushId d s) (fingerprint d :: h)
      constructor
      · intro x hx
        rcases ihids x hx with hx2 | ⟨e, he, hei⟩
        · unfold pushId at hx2
          cases htid : truthyId d with
          | none =>
            rw [htid] at hx2
            exact Or.inl hx2
          | some i =>
            rw [htid] at hx2
            rcases List.mem_cons.mp hx2 with rfl | hx3
            · exact Or.inr ⟨d, List.mem_cons_self d _, htid⟩
            · exact Or.inl hx3
        · exact Or.inr ⟨e, List.mem_cons_of_mem d he, hei⟩
      · intro t ht
        rcases ihhashes t ht with ht2 | ⟨e, he, hef⟩
        · rcases List.mem_cons.mp ht2 with rfl | ht3
          · exact Or.inr ⟨d, List.mem_cons_self d _, rfl⟩
          · exact Or.inl ht3
        · exact Or.inr ⟨e, List.mem_cons_of_mem d he, hef⟩

theorem blocked_nil (d : Doc) : blocked [] [] d = false := by
  unfold blocked idBlocked
  cases truthyId d <;> simp

/-- C4: properties of `_deduplicate_documents`. (1) The output is a sublist
of the input, so later duplicates are dropped whole, never merged
field-by-field. (2) No identity appears twice: output documents have
pairwise distinct fingerprints and pairwise distinct truthy ids. (3) Every
input document is represented by an output document sharing its truthy id
or its content fingerprint. (4) The first-seen document always survives.
(5) Two documents with different surface ids but identical content collapse
to the first one. The fingerprint is the raw 200-character content prefix
(the code applies no further normalisation), and id-keying applies to ids
that are present and non-empty. -/
theorem dedup_identity_spec (L : List Doc) (d1 d2 : Doc) :
    (deduplicateDocuments L).Sublist L ∧
    (deduplicateDocuments L).Pairwise distinctKeys ∧
    (∀ d ∈ L, ∃ e ∈ deduplicateDocuments L,
      (∃ i, truthyId d = some i ∧ truthyId e = some i) ∨
        fingerprint e = fingerprint d) ∧
    (∀ d M, ∃ T, deduplicateDocuments (d :: M) = d :: T) ∧
    (fingerprint d1 = fingerprint d2 → deduplicateDocuments [d1, d2] = [d1]) := by
  refine ⟨dedupAux_sublist L [] [], (dedup_invariant L [] []).2, ?_, ?_, ?_⟩
  · intro d hd
    have hb := blocked_after_of_mem L [] [] d hd
    unfold blocked idBlocked at hb
    cases htid : truthyId d with
    | some i =>
      rw [htid] at hb
      simp only [Bool.or_eq_true, decide_eq_true_eq] at hb
      rcases hb with hb | hb
      · rcases (after_mem_origin L [] []).1 i hb with h0 | ⟨e, he, hei⟩
        · cases h0
        · exact ⟨e, he, Or.inl ⟨i, rfl, hei⟩⟩
      · rcases (after_mem_origin L [] []).2 _ hb with h0 | ⟨e, he, hef⟩
        · cases h0
        · exact ⟨e, he, Or.inr hef⟩
    | none =>
      rw [htid] at hb
      simp only [Bool.false_or, decide_eq_true_eq] at hb
      rcases (after_mem_origin L [] []).2 _ hb with h0 | ⟨e, he, hef⟩
      · cases h0
      · exact ⟨e, he, Or.inr hef⟩
  · intro d M
    refine ⟨dedupAux (pushId d []) [fingerprint d] M, ?_⟩
    unfold deduplicateDocuments
    rw [dedupAux, if_neg (by rw [blocked_nil]; exact Bool.false_ne_true)]
  · intro hfp
    have h2 : blocked (pushId d1 []) [fingerprint d1] d2 = true := by
      unfold blocked
      rw [← hfp]
      simp
    unfold deduplicateDocuments
    rw [dedupAux, if_neg (by rw [blocked_nil]; exact Bool.false_ne_true),
      dedupAux, if_pos h2, dedupAux]

/-- Documents with different surface ids and identical content, used to
witness the collapse behaviour of `_deduplicate_documents`. -/
def docSameA : Doc := ⟨some "a", none, some ("identical content".toList), none, none, none, none⟩

/-- Same content as `docSameA` but a different surface id. -/
def docSameB : Doc := ⟨some "b", none, some ("identical content".toList), none, none, none, none⟩

/-- C4 (witness): on two concrete documents with different ids and the same
content, deduplication keeps only the first. -/
theorem dedup_identity_spec_witness :
    fingerprint docSameA = fingerprint docSameB ∧
    deduplicateDocuments [docSameA, docSameB] = [docSameA] :=
  ⟨by decide, (dedup_identity_spec [docSameA, docSameB] docSameA docSameB).2.2.2.2 (by decide)⟩

/-! ### Refined-query construction and provider query limits (claim C5)

agents/query_planning.py builds one refined query per selected agent, each
truncated to 390 characters; function_tools/brave_search.py normalises and
truncates every query to at most 400 characters before it is sent to the
search provider. -/

/-- Joins query parts with single spaces (Python join with a single space). -/
def joinWords (parts : List Text) : Text := List.intercalate [' '] parts

/-- Embeds `_create_regulation_query`. -/
def createRegulationQuery (entities keywords : List Text) : Text :=
  let keyEntities := entities.take 2
  let keyKeywords := (keywords.filter (fun kw => 3 < kw.length)).take 4
  let queryParts := keyEntities ++ keyKeywords.take 3
  (joinWords (queryParts.take 6)).take 390

/-- Embeds `_create_precedent_query` (its keywords argument is unused in
the source as well). -/
def createPrecedentQuery (entities _keywords : List Text) : Text :=
  let precedentTerms := ["precedent".toList, "similar".toList, "transaction".toList]
  (joinWords (precedentTerms ++ entities.take 2)).take 390

/-- Embeds `_create_transaction_precedent_query`. -/
def createTransactionPrecedentQuery (entities _keywords : List Text) : Text :=
  let transactionTerms :=
    ["merger".toList, "acquisition".toList, "deal".toList, "transaction".toList]
  let keyEntities := (entities.filter (fun e =>
    containsSeq ("338".toList) e || containsSeq ("election".toList) e)).take 2
  (joinWords (transactionTerms.take 2 ++ keyEntities)).take 390

/-- Embeds `_create_expert_query`. -/
def createExpertQuery (entities keywords : List Text) : Text :=
  let expertTerms := ["analysis".toList, "strategy".toList, "planning".toList]
  let keyKeywords := (keywords.filter (fun kw =>
    decide (kw ∈ ["tax".toList, "international".toList,
      "GILTI".toList, "NOL".toList]))).take 3
  (joinWords (expertTerms.take 1 ++ entities.take 2 ++ keyKeywords)).take 390

/-- Embeds `_create_caselaw_query`. -/
def createCaselawQuery (entities _keywords : List Text) : Text :=
  let caseTerms := ["case".toList, "ruling".toList, "court".toList]
  (joinWords (caseTerms.take 1 ++ entities.take 2)).take 390

/-- Embeds `_create_transaction_caselaw_query`. -/
def createTransactionCaselawQuery (entities _keywords : List Text) : Text :=
  let keyEntities := (entities.filter (fun e => containsSeq ("338".toList) e)).take 1
  let transactionTerms := ["merger".toList, "case".toList, "ruling".toList]
  (joinWords (transactionTerms.take 2 ++ keyEntities)).take 390

/-- Stop words filtered out by the general query builders. -/
def generalStopWords : List Text :=
  ["the".toList, "and".toList, "or".toList, "of".toList, "to".toList]

/-- Embeds `_create_general_regulation_query`. -/
def createGeneralRegulationQuery (keywords : List Text) : Text :=
  let regKeywords := (keywords.filter (fun kw => !decide (kw ∈ generalStopWords))).take 5
  (joinWords regKeywords).take 390

/-- Embeds `_create_general_caselaw_query` (appends the literal "case"
before joining). -/
def createGeneralCaselawQuery (keywords : List Text) : Text :=
  let caseKeywords := (keywords.filter (fun kw => !decide (kw ∈ generalStopWords))).take 4
  (joinWords (caseKeywords ++ ["case".toList])).take 390

/-- Whitespace split of brave_search.py `query.split()`, with an
accumulator for the word being read. -/
def splitWordsAux : Text → Text → List Text
  | [], cur => if cur.isEmpty then [] else [cur.reverse]
  | c :: rest, cur =>
    if c = ' ' then
      if cur.isEmpty then splitWordsAux rest [] else cur.reverse :: splitWordsAux rest []
    else splitWordsAux rest (c :: cur)

/-- Splits text into whitespace-separated words. -/
def splitWords (t : Text) : List Text := splitWordsAux t []

/-- Embeds the whitespace normalisation join(split) of the query. -/
def normalizeSpaces (q : Text) : Text := joinWords (splitWords q)

/-- Index of the last space in a text (rfind of the space character), none when there
is no space. -/
def lastSpaceIdx : Text → Option ℕ
  | [] => none
  | c :: rest =>
    match lastSpaceIdx rest with
    | some i => some (i + 1)
    | none => if c = ' ' then some 0 else none

/-- Embeds brave_search.py `_validate_and_truncate_query`, applied by
`BraveSearchTool.search` to every query before the provider request: after
whitespace normalisation, a query within 400 characters passes through;
otherwise it is cut at the last word boundary when that preserves more
than 80 percent of the limit, and hard-truncated with an ellipsis
otherwise. -/
def validateAndTruncateQuery (query : Text) : Text :=
  if (normalizeSpaces query).length ≤ 400 then normalizeSpaces query
  else
    match lastSpaceIdx ((normalizeSpaces query).take 400) with
    | some i =>
      if 320 < i then ((normalizeSpaces query).take 400).take i
      else (normalizeSpaces query).take 397 ++ "...".toList
    | none => (normalizeSpaces query).take 397 ++ "...".toList

theorem lastSpaceIdx_lt_length (t : Text) : ∀ i, lastSpaceIdx t = some i → i < t.length := by
  induction t with
  | nil => intro i hi; simp [lastSpaceIdx] at hi
  | cons c rest ih =>
    intro i hi
    unfold lastSpaceIdx at hi
    cases hrec : lastSpaceIdx rest with
    | some j =>
      rw [hrec] at hi
      simp only [Option.some.injEq] at hi
      subst hi
      exact Nat.succ_lt_succ (ih j hrec)
    | none =>
      rw [hrec] at hi
      by_cases hc : c = ' '
      · rw [if_pos hc] at hi
        simp only [Option.some.injEq] at hi
        subst hi
        exact Nat.succ_pos _
      · rw [if_neg hc] at hi
        cases hi

/-- C5: every per-agent refined query built during strategy construction is
at most 390 characters, and the query the Brave tool sends to the external
search provider is always at most the 400-character provider limit. -/
theorem refined_query_length_bounds :
    (∀ entities keywords : List Text,
      (createRegulationQuery entities keywords).length ≤ 390 ∧
      (createPrecedentQuery entities keywords).length ≤ 390 ∧
      (createTransactionPrecedentQuery entities keywords).length ≤ 390 ∧
      (createExpertQuery entities keywords).length ≤ 390 ∧
      (createCaselawQuery entities keywords).length ≤ 390 ∧
      (createTransactionCaselawQuery entities keywords).length ≤ 390 ∧
      (createGeneralRegulationQuery keywords).length ≤ 390 ∧
      (createGeneralCaselawQuery keywords).length ≤ 390) ∧
    (∀ query : Text, (validateAndTruncateQuery query).length ≤ 400) := by
  constructor
  · intro entities keywords
    refine ⟨?_, ?_, ?_, ?_, ?_, ?_, ?_, ?_⟩ <;>
      simp only [createRegulationQuery, createPrecedentQuery,
        createTransactionPrecedentQuery, createExpertQuery, createCaselawQuery,
        createTransactionCaselawQuery, createGeneralRegulationQuery,
        createGeneralCaselawQuery, List.length_take] <;>
      exact min_le_left _ _
  · intro query
    unfold validateAndTruncateQuery
    split_ifs with h1
    · exact h1
    · cases hidx : lastSpaceIdx ((normalizeSpaces query).take 400) with
      | some i =>
        dsimp only
        have hi := lastSpaceIdx_lt_length _ i hidx
        rw [List.length_take] at hi
        split_ifs with h2
        · rw [List.length_take, List.length_take]
          omega
        · rw [List.length_append, List.length_take]
          have h3 : ("...".toList).length = 3 := rfl
          omega
      | none =>
        dsimp only
        rw [List.length_append, List.length_take]
        have h3 : ("...".toList).length = 3 := rfl
        omega

/-! ### Agent failure containment (claim C6)

phases.py `_run_agent_with_timeout` wraps each agent task; the behaviour of
one invocation is modelled by what the awaited coroutine does: return a
RetrievalResult, raise, or exceed the per-agent timeout. -/

/-- Outcome of awaiting the `process` call of one agent under the per-agent timeout. -/
inductive AgentBehavior where
  | completes (r : RetrievalResult)
  | raises (msg : String)
  | timesOut
deriving DecidableEq

/-- The error message the agent boundary records for a failing behaviour. -/
def AgentBehavior.failureMsg : AgentBehavior → Option String
  | .completes _ => none
  | .raises msg => some msg
  | .timesOut => some "timeout"

/-- Embeds phases.py `_run_agent_with_timeout`: exceptions and timeouts are
converted into zero-confidence empty results carrying the error message
(or "timeout") in metadata; the timeout result records the configured
timeout as its retrieval time. -/
def runAgentWithTimeout (agentTimeout : ℚ) (name : String) :
    AgentBehavior → RetrievalResult
  | .completes r => r
  | .raises msg => ⟨[], 0, name, some msg, 0⟩
  | .timesOut => ⟨[], 0, name, some "timeout", agentTimeout⟩

/-- Embeds the result-collection loop of phases.py `phase3_retrieval`:
the outcome of every agent lands in its own named slot, independently of the
other agents. -/
def collectAgentOutputs (agentTimeout : ℚ)
    (agents : List (String × AgentBehavior)) : List (String × RetrievalResult) :=
  agents.map (fun p => (p.1, runAgentWithTimeout agentTimeout p.1 p.2))

/-- All documents gathered across agents, in agent order, before
deduplication. -/
def gatheredDocuments (agentTimeout : ℚ)
    (agents : List (String × AgentBehavior)) : List Doc :=
  ((collectAgentOutputs agentTimeout agents).map (fun p => p.2.documents)).flatten

/-- C6: a failing agent invocation (exception or timeout) yields a
RetrievalResult with confidence 0.0, no documents, and the error message
(or "timeout") in metadata; collecting the results of a fan-out containing
the failing agent leaves the slot of every other agent exactly as it would be,
and the gathered document pool is exactly the documents of the other agents. -/
theorem agent_failure_contained (agentTimeout : ℚ) (name : String)
    (b : AgentBehavior) (pre post : List (String × AgentBehavior))
    (hfail : b.failureMsg ≠ none) :
    (runAgentWithTimeout agentTimeout name b).confidence = 0 ∧
    (runAgentWithTimeout agentTimeout name b).documents = [] ∧
    (runAgentWithTimeout agentTimeout name b).metadataError = b.failureMsg ∧
    collectAgentOutputs agentTimeout (pre ++ (name, b) :: post) =
      collectAgentOutputs agentTimeout pre ++
        (name, runAgentWithTimeout agentTimeout name b) ::
          collectAgentOutputs agentTimeout post ∧
    gatheredDocuments agentTimeout (pre ++ (name, b) :: post) =
      gatheredDocuments agentTimeout pre ++ gatheredDocuments agentTimeout post := by
  cases b with
  | completes r => simp [AgentBehavior.failureMsg] at hfail
  | raises msg =>
    refine ⟨rfl, rfl, rfl, by simp [collectAgentOutputs], ?_⟩
    simp [gatheredDocuments, collectAgentOutputs, runAgentWithTimeout]
  | timesOut =>
    refine ⟨rfl, rfl, rfl, by simp [collectAgentOutputs], ?_⟩
    simp [gatheredDocuments, collectAgentOutputs, runAgentWithTimeout]

/-- C6 (witness): a timed-out CaseLawAgent next to a completing
RegulationAgent. -/
theorem agent_failure_contained_witness :
    (runAgentWithTimeout 30 "CaseLawAgent" AgentBehavior.timesOut).confidence = 0 ∧
    (runAgentWithTimeout 30 "CaseLawAgent" AgentBehavior.timesOut).documents = [] ∧
    (runAgentWithTimeout 30 "CaseLawAgent" AgentBehavior.timesOut).metadataError
      = some "timeout" :=
  have h := agent_failure_contained 30 "CaseLawAgent" AgentBehavior.timesOut
    [("RegulationAgent", AgentBehavior.completes ⟨[], 0, "regulation_agent", none, 0⟩)]
    [] (by decide)
  ⟨h.1, h.2.1, h.2.2.1⟩

/-! ### Complexity scoring (claim C7)

agents/query_planning.py `_determine_complexity` scores a query additively
over the features it reads: len(entities), len(keywords),
len(query.split()), and the intent type. -/

/-- Entity-count points of `_determine_complexity`. -/
def entityScore (entityCount : ℕ) : ℕ :=
  if 3 < entityCount then 3
  else if 1 < entityCount then 2
  else if entityCount = 1 then 1
  else 0

/-- Keyword-count points of `_determine_complexity`. -/
def keywordScore (keywordCount : ℕ) : ℕ :=
  if 8 < keywordCount then 2 else if 5 < keywordCount then 1 else 0

/-- Query-word-count points of `_determine_complexity`. -/
def lengthScore (wordCount : ℕ) : ℕ :=
  if 20 < wordCount then 2 else if 10 < wordCount then 1 else 0

/-- Intent-type points of `_determine_complexity`. -/
def intentScore (intentType : String) : ℕ :=
  if intentType = "transaction_analysis" ∨ intentType = "precedent_analysis"
  then 2 else 0

/-- The additive complexity score. -/
def complexityScore (entityCount keywordCount wordCount : ℕ)
    (intentType : String) : ℕ :=
  entityScore entityCount + keywordScore keywordCount
    + lengthScore wordCount + intentScore intentType

/-- Score bands of `_determine_complexity`. -/
def complexityBand (score : ℕ) : QueryComplexity :=
  if 7 ≤ score then .expert
  else if 5 ≤ score then .complex
  else if 3 ≤ score then .moderate
  else .simple

/-- Embeds `_determine_complexity` over the feature counts it reads. -/
def determineComplexity (entityCount keywordCount wordCount : ℕ)
    (intentType : String) : QueryComplexity :=
  complexityBand (complexityScore entityCount keywordCount wordCount intentType)

/-- Numeric level of a tier: Simple < Moderate < Complex < Expert. -/
def tierLevel : QueryComplexity → ℕ
  | .simple => 0
  | .moderate => 1
  | .complex => 2
  | .expert => 3

theorem entityScore_mono {a b : ℕ} (h : a ≤ b) : entityScore a ≤ entityScore b := by
  unfold entityScore
  split_ifs <;> omega

theorem keywordScore_mono {a b : ℕ} (h : a ≤ b) : keywordScore a ≤ keywordScore b := by
  unfold keywordScore
  split_ifs <;> omega

theorem lengthScore_mono {a b : ℕ} (h : a ≤ b) : lengthScore a ≤ lengthScore b := by
  unfold lengthScore
  split_ifs <;> omega

theorem tierLevel_complexityBand (s : ℕ) :
    tierLevel (complexityBand s) =
      if 7 ≤ s then 3 else if 5 ≤ s then 2 else if 3 ≤ s then 1 else 0 := by
  unfold complexityBand
  split_ifs <;> rfl

/-- C7: the complexity score is additive over the entity count, keyword
count, query word count and intent-type category, and the assigned tier is
monotone: increasing entity count, keyword count or query length (intent
fixed) never decreases the tier. -/
theorem complexity_tier_monotone (e1 e2 k1 k2 w1 w2 : ℕ) (intentType : String)
    (he : e1 ≤ e2) (hk : k1 ≤ k2) (hw : w1 ≤ w2) :
    determineComplexity e1 k1 w1 intentType =
      complexityBand (entityScore e1 + keywordScore k1 + lengthScore w1
        + intentScore intentType) ∧
    tierLevel (determineComplexity e1 k1 w1 intentType) ≤
      tierLevel (determineComplexity e2 k2 w2 intentType) := by
  refine ⟨rfl, ?_⟩
  have hscore : complexityScore e1 k1 w1 intentType ≤ complexityScore e2 k2 w2 intentType := by
    unfold complexityScore
    have h1 := entityScore_mono he
    have h2 := keywordScore_mono hk
    have h3 := lengthScore_mono hw
    omega
  unfold determineComplexity
  rw [tierLevel_complexityBand, tierLevel_complexityBand]
  split_ifs <;> omega

/-- C7 (witness): growing the features of a query from (1 entity, 3 keywords,
5 words) to (2 entities, 6 keywords, 12 words) does not decrease the tier. -/
theorem complexity_tier_monotone_witness :
    tierLevel (determineComplexity 1 3 5 "general_guidance") ≤
      tierLevel (determineComplexity 2 6 12 "general_guidance") :=
  (complexity_tier_monotone 1 2 3 6 5 12 "general_guidance"
    (by decide) (by decide) (by decide)).2

/-! ### Agent self-confidence (claim C9)

agents/case_law.py `_calculate_confidence` dampens the average relevance
score by a document-count factor and a source-diversity factor. -/

/-- Relevance score of a document (doc.get of the relevance_score key, defaulting to 0). -/
def relevanceOf (d : Doc) : ℚ := d.relevance.getD 0

/-- Source label of a document (doc.get of the source key, defaulting to empty). -/
def sourceOf (d : Doc) : String := d.source.getD ""

/-- Embeds case_law.py `_calculate_confidence`: zero on no documents,
otherwise the average relevance score times min(count/3, 1) times
min(distinct-sources/3, 1). -/
def calculateConfidence (documents : List Doc) : ℚ :=
  if documents = [] then 0
  else
    let scores := documents.map relevanceOf
    let avgScore := scores.sum / scores.length
    let docCountFactor := min ((documents.length : ℚ) / 3) 1
    let sources := (documents.map sourceOf).dedup
    let diversityFactor := min ((sources.length : ℚ) / 3) 1
    avgScore * docCountFactor * diversityFactor

/-- C9: the self-reported confidence of the agent is the average relevance
dampened by the evidence-quantity and diversity factors, never the bare
average: a single-document result set scores one ninth of its
relevance, strictly below it whenever the relevance is positive — so even
a single maximum-relevance document does not imply high confidence. -/
theorem single_document_confidence_dampened (d : Doc) (h : 0 < relevanceOf d) :
    calculateConfidence [d] = relevanceOf d * (1/3) * (1/3) ∧
    calculateConfidence [d] < relevanceOf d := by
  have heq : calculateConfidence [d] = relevanceOf d * (1/3) * (1/3) := by
    rw [calculateConfidence, if_neg (by simp)]
    simp only [List.map_cons, List.map_nil, List.sum_cons, List.sum_nil,
      List.length_cons, List.length_nil, List.dedup_cons_of_not_mem
        (List.not_mem_nil (sourceOf d)), List.dedup_nil]
    norm_num
  refine ⟨heq, ?_⟩
  rw [heq]
  have hexp : relevanceOf d * (1/3) * (1/3) = relevanceOf d / 9 := by ring
  rw [hexp]
  linarith

/-- A single document carrying the maximum relevance score 1.0. -/
def docMaxRelevance : Doc :=
  ⟨some "doc-1", some "ruling", some [], some 1, some "internal", none, none⟩

/-- C9 (witness): one maximum-relevance document yields confidence strictly
below its relevance score. -/
theorem single_document_confidence_dampened_witness :
    0 < relevanceOf docMaxRelevance ∧
    calculateConfidence [docMaxRelevance] < relevanceOf docMaxRelevance :=
  ⟨by simp [relevanceOf, docMaxRelevance],
   (single_document_confidence_dampened docMaxRelevance
     (by simp [relevanceOf, docMaxRelevance])).2⟩

/-! ### Cross-agent consolidation (claim C10)

orchestrator.py `_consolidate_results` walks the agents in the order given
by the stable Python `sorted` over the priority table (RegulationAgent 1,
CaseLawAgent 2, ExpertAgent 3, PrecedentAgent 4, everything else 5, ties
in dict insertion order), keeping the first occurrence of every truthy id
and annotating kept documents with the retrieving agent and its
confidence. The results dict is modelled as an association list in
insertion order. -/

/-- The priority table of `_consolidate_results`, in priority order. -/
def knownAgentOrder : List String :=
  ["RegulationAgent", "CaseLawAgent", "ExpertAgent", "PrecedentAgent"]

/-- The stable Python sort by the priority key, realised as bucket
concatenation: the four known agents in priority order, then all other
keys in their original insertion order. -/
def sortAgentKeys (keys : List String) : List String :=
  keys.filter (fun k => decide (k = "RegulationAgent"))
    ++ keys.filter (fun k => decide (k = "CaseLawAgent"))
    ++ keys.filter (fun k => decide (k = "ExpertAgent"))
    ++ keys.filter (fun k => decide (k = "PrecedentAgent"))
    ++ keys.filter (fun k => decide (k ∉ knownAgentOrder))

/-- The annotation `_consolidate_results` writes on each kept document
(`retrieved_by` and `agent_confidence`). -/
def annotateDoc (agentName : String) (agentConfidence : ℚ) (d : Doc) : Doc :=
  ⟨d.id, d.title, d.content, d.relevance, d.source, some agentName, some agentConfidence⟩

/-- Inner loop of `_consolidate_results`: keep documents whose truthy id is
fresh, annotate them, record the id; documents without a truthy id are
skipped. Returns the kept documents and the updated seen-set. -/
def consolidateDocs (agentName : String) (conf : ℚ) :
    List Doc → List String → List Doc × List String
  | [], seen => ([], seen)
  | d :: rest, seen =>
    match truthyId d with
    | some i =>
      if i ∈ seen then consolidateDocs agentName conf rest seen
      else
        let step := consolidateDocs agentName conf rest (i :: seen)
        (annotateDoc agentName conf d :: step.1, step.2)
    | none => consolidateDocs agentName conf rest seen

/-- Lookup of the result of an agent (Python `results[agent_name]`; the default
is never reached since keys are drawn from the map itself). -/
def lookupResult (results : List (String × RetrievalResult)) (k : String) :
    RetrievalResult :=
  ((results.find? (fun p => decide (p.1 = k))).map Prod.snd).getD ⟨[], 0, "", none, 0⟩

/-- Outer loop of `_consolidate_results` over the sorted agent keys. -/
def consolidateAux (results : List (String × RetrievalResult)) :
    List String → List String → List Doc
  | [], _ => []
  | k :: ks, seen =>
    let step := consolidateDocs k (lookupResult results k).confidence
      (lookupResult results k).documents seen
    step.1 ++ consolidateAux results ks step.2

/-- Embeds orchestrator.py `_consolidate_results`. -/
def consolidateResults (results : List (String × RetrievalResult)) : List Doc :=
  consolidateAux results (sortAgentKeys (results.map Prod.fst)) []

/-- A web-search document with id "x" and title "A". -/
def webDoc : Doc := ⟨some "x", some "A", none, none, none, none, none⟩

/-- An IRS document with the same id "x" but title "B". -/
def irsDoc : Doc := ⟨some "x", some "B", none, none, none, none, none⟩

/-- Two external agents (both priority 5) inserted web-search first. -/
def resultsWebFirst : List (String × RetrievalResult) :=
  [("WebSearchAgent", ⟨[webDoc], 0, "web_search", none, 0⟩),
   ("IRSAPIAgent", ⟨[irsDoc], 0, "irs_api", none, 0⟩)]

/-- The same two agent results inserted in the opposite order. -/
def resultsIrsFirst : List (String × RetrievalResult) :=
  [("IRSAPIAgent", ⟨[irsDoc], 0, "irs_api", none, 0⟩),
   ("WebSearchAgent", ⟨[webDoc], 0, "web_search", none, 0⟩)]

/-- C10 (counterexample): the same per-agent result sets, inserted into the
results map in two different orders, consolidate to different document
lists: WebSearchAgent and IRSAPIAgent both fall outside the priority table,
so their tie is broken by map insertion order and the first-seen winner for
the shared id "x" flips. -/
theorem consolidate_order_counterexample :
    resultsWebFirst.Perm resultsIrsFirst ∧
    consolidateResults resultsWebFirst ≠ consolidateResults resultsIrsFirst := by
  constructor
  · exact List.Perm.swap _ _ []
  · intro h
    have h1 : consolidateResults resultsWebFirst =
        [annotateDoc "WebSearchAgent" 0 webDoc] := rfl
    have h2 : consolidateResults resultsIrsFirst =
        [annotateDoc "IRSAPIAgent" 0 irsDoc] := rfl
    rw [h1, h2] at h
    simp [annotateDoc, webDoc, irsDoc] at h

theorem eq_of_mem_of_nodup_keys {β : Type} {l : List (String × β)}
    (hn : (l.map Prod.fst).Nodup) {a b : String × β}
    (ha : a ∈ l) (hb : b ∈ l) (hfst : a.1 = b.1) : a = b := by
  induction l with
  | nil => cases ha
  | cons p rest ih =>
    rw [List.map_cons, List.nodup_cons] at hn
    rcases List.mem_cons.mp ha with rfl | ha2
    · rcases List.mem_cons.mp hb with rfl | hb2
      · rfl
      · exact absurd (hfst ▸ List.mem_map_of_mem Prod.fst hb2) hn.1
    · rcases List.mem_cons.mp hb with rfl | hb2
      · exact absurd (hfst ▸ List.mem_map_of_mem Prod.fst ha2) hn.1
      · exact ih hn.2 ha2 hb2

theorem find?_key_eq_of_perm {l1 l2 : List (String × RetrievalResult)}
    (hp : l1.Perm l2) (hn : (l1.map Prod.fst).Nodup) (k : String) :
    l1.find? (fun p => decide (p.1 = k)) = l2.find? (fun p => decide (p.1 = k)) := by
  cases hf1 : l1.find? (fun p => decide (p.1 = k)) with
  | none =>
    rw [List.find?_eq_none] at hf1
    symm
    rw [List.find?_eq_none]
    exact fun x hx => hf1 x ((hp.mem_iff).mpr hx)
  | some x =>
    have hx1 : x ∈ l1 := List.mem_of_find?_eq_some hf1
    have hpx : x.1 = k := by simpa using List.find?_some hf1
    cases hf2 : l2.find? (fun p => decide (p.1 = k)) with
    | none =>
      rw [List.find?_eq_none] at hf2
      exact absurd (by simpa using hpx) (hf2 x ((hp.mem_iff).mp hx1))
    | some y =>
      have hy1 : y ∈ l1 := (hp.mem_iff).mpr (List.mem_of_find?_eq_some hf2)
      have hpy : y.1 = k := by simpa using List.find?_some hf2
      rw [eq_of_mem_of_nodup_keys hn hx1 hy1 (hpx.trans hpy.symm)]

theorem lookupResult_eq_of_perm {l1 l2 : List (String × RetrievalResult)}
    (hp : l1.Perm l2) (hn : (l1.map Prod.fst).Nodup) (k : String) :
    lookupResult l1 k = lookupResult l2 k := by
  unfold lookupResult
  rw [find?_key_eq_of_perm hp hn k]

theorem filter_key_eq_of_nodup {keys : List String} (hn : keys.Nodup) (a : String) :
    keys.filter (fun k => decide (k = a)) = if a ∈ keys then [a] else [] := by
  induction keys with
  | nil => simp
  | cons k rest ih =>
    rw [List.nodup_cons] at hn
    by_cases hk : k = a
    · subst hk
      rw [List.filter_cons_of_pos (by simp)]
      rw [ih hn.2, if_neg hn.1, if_pos (List.mem_cons_self k rest)]
    · rw [List.filter_cons_of_neg (by simp [hk])]
      rw [ih hn.2]
      by_cases hmem : a ∈ rest
      · rw [if_pos hmem, if_pos (List.mem_cons_of_mem k hmem)]
      · rw [if_neg hmem, if_neg (by
          simp only [List.mem_cons, not_or]
          exact ⟨fun h => hk h.symm, hmem⟩)]

theorem filter_unknown_eq_nil {keys : List String}
    (hknown : ∀ k ∈ keys, k ∈ knownAgentOrder) :
    keys.filter (fun k => decide (k ∉ knownAgentOrder)) = [] := by
  rw [List.filter_eq_nil_iff]
  intro k hk
  simp [hknown k hk]

theorem sortAgentKeys_eq_of_perm {keys1 keys2 : List String}
    (hp : keys1.Perm keys2) (hn : keys1.Nodup)
    (hknown : ∀ k ∈ keys1, k ∈ knownAgentOrder) :
    sortAgentKeys keys1 = sortAgentKeys keys2 := by
  have hn2 : keys2.Nodup := hp.nodup_iff.mp hn
  have hknown2 : ∀ k ∈ keys2, k ∈ knownAgentOrder :=
    fun k hk => hknown k ((hp.mem_iff).mpr hk)
  unfold sortAgentKeys
  rw [filter_key_eq_of_nodup hn, filter_key_eq_of_nodup hn2,
    filter_key_eq_of_nodup hn, filter_key_eq_of_nodup hn2,
    filter_key_eq_of_nodup hn, filter_key_eq_of_nodup hn2,
    filter_key_eq_of_nodup hn, filter_key_eq_of_nodup hn2,
    filter_unknown_eq_nil hknown, filter_unknown_eq_nil hknown2]
  simp only [hp.mem_iff]

theorem consolidateAux_congr {l1 l2 : List (String × RetrievalResult)}
    (hl : ∀ k, lookupResult l1 k = lookupResult l2 k) :
    ∀ ks seen, consolidateAux l1 ks seen = consolidateAux l2 ks seen := by
  intro ks
  induction ks with
  | nil => intro seen; rfl
  | cons k rest ih =>
    intro seen
    rw [consolidateAux, consolidateAux, hl k]
    rw [ih]

/-- C10 (amended): `_consolidate_results` processes agents in the fixed
priority order RegulationAgent, CaseLawAgent, ExpertAgent, PrecedentAgent;
agents outside this table share the lowest priority and keep map insertion
order, so the output is a deterministic function of the per-agent result
sets alone — independent of completion/insertion order — whenever the
results map contains only the four prioritised agents. (With two or more
agents outside the table the output can depend on insertion order, as the
counterexample shows.) -/
theorem consolidate_deterministic_for_known_agents
    (l1 l2 : List (String × RetrievalResult)) (hp : l1.Perm l2)
    (hn : (l1.map Prod.fst).Nodup)
    (hknown : ∀ k ∈ l1.map Prod.fst, k ∈ knownAgentOrder) :
    consolidateResults l1 = consolidateResults l2 := by
  unfold consolidateResults
  rw [sortAgentKeys_eq_of_perm (hp.map Prod.fst) hn hknown]
  exact consolidateAux_congr (lookupResult_eq_of_perm hp hn) _ _

/-- Regulation-agent result used in the C10 witness. -/
def regResult : RetrievalResult :=
  ⟨[⟨some "r1", some "Reg", none, none, none, none, none⟩], 0, "regulation_agent", none, 0⟩

/-- Case-law-agent result used in the C10 witness. -/
def caseResult : RetrievalResult :=
  ⟨[⟨some "c1", some "Case", none, none, none, none, none⟩], 0, "case_law_agent", none, 0⟩

/-- C10 (witness for the amended theorem): the two prioritised agents
consolidate to the same list in either insertion order. -/
theorem consolidate_deterministic_witness :
    consolidateResults [("RegulationAgent", regResult), ("CaseLawAgent", caseResult)] =
      consolidateResults [("CaseLawAgent", caseResult), ("RegulationAgent", regResult)] :=
  consolidate_deterministic_for_known_agents _ _
    (List.Perm.swap _ _ []) (by decide) (by decide)

end MnA
